import Mathlib

/-!
Verification of the CCC Causal Memory Engine against its specification.

The development shallowly embeds the Python sources:
  * `src/utils/causal_memory_core.py` — causal event store, causality linker,
    narrative reconstructor (`CausalMemoryCore`);
  * `src/utils/context_analyzer.py` — relevance filter (`ContextAnalyzer`);
  * `src/utils/performance_utils.py` — bounded session cache
    (`BoundedSessionCache`).

Machine floats are modelled as rationals (`ℚ`), timestamps as integer or
rational seconds, database rows as Lean lists, and fallible external calls
as `Option`-valued parameters.  Cosine similarity over float vectors
involves a real square root, so the numeric kernel is abstracted as an
`Option ℚ`-valued parameter while every guard around it (identical-text
skip, shape mismatch, zero denominator, threshold) is modelled explicitly.
-/

namespace CCC

/-- Model of the `CausalEvent` dataclass: an event row of the
`causal_events` table.  Embedding floats are rationals, the timestamp is
in integer seconds. -/
structure CausalEvent where
  event_id : Nat
  timestamp : Int
  effect_text : String
  embedding : List ℚ
  cause_id : Option Nat := none
  relationship_text : Option String := none
deriving Repr, DecidableEq

/-- Model of `CausalMemoryCore._get_event_by_id`: the SQL
`SELECT ... WHERE event_id = ?` + `fetchone`, i.e. the first row whose
`event_id` matches. -/
def get_event_by_id (db : List CausalEvent) (eid : Nat) : Option CausalEvent :=
  db.find? (fun e => e.event_id == eid)

/-- Model of `CausalMemoryCore._find_direct_effect`: the SQL
`WHERE cause_id = ? ORDER BY timestamp ASC LIMIT 1`, i.e. an
earliest-timestamp row whose `cause_id` equals the given id (the first
such row when timestamps tie). -/
def find_direct_effect (db : List CausalEvent) (cid : Nat) : Option CausalEvent :=
  (db.filter (fun e => decide (e.cause_id = some cid))).foldl
    (fun acc e =>
      match acc with
      | none => some e
      | some b => if e.timestamp < b.timestamp then some e else some b)
    none

/-- Model of the truthiness test `if event.relationship_text:` followed by
`f" ({event.relationship_text})"` in `_format_chain_as_narrative`: the
parenthetical clause is produced only for a present, non-empty
relationship text. -/
def relClause (e : CausalEvent) : String :=
  match e.relationship_text with
  | some r => if r = "" then "" else " (" ++ r ++ ")"
  | none => ""

/-- Model of the clause-building loop of
`CausalMemoryCore._format_chain_as_narrative`: index 1 renders
`"This led to ..."`, later indices `"which in turn caused ..."`. -/
def buildClauses : List CausalEvent → List String
  | [] => []
  | e :: es =>
      ("This led to " ++ e.effect_text ++ relClause e) ::
        es.map (fun e2 => "which in turn caused " ++ e2.effect_text ++ relClause e2)

/-- Model of `CausalMemoryCore._format_chain_as_narrative`. -/
def format_chain_as_narrative (chain : List CausalEvent) : String :=
  match chain with
  | [] => "No causal chain found."
  | [e] => "Initially, " ++ e.effect_text ++ "."
  | e0 :: rest =>
      let clauses := buildClauses rest
      let narrative := "Initially, " ++ e0.effect_text ++ "."
      if clauses = [] then narrative
      else narrative ++ " " ++ String.intercalate ", " clauses ++ "."

/-- Parenthetical clause as the specification words it: present whenever
`relationship_text` is set, omitted exactly when it is absent. -/
def specParen (e : CausalEvent) : String :=
  match e.relationship_text with
  | some r => " (" ++ r ++ ")"
  | none => ""

/-- Narrative rendering as the specification words it (§4.3 step 5 of the
spec): `none` on the empty chain, `"Initially, {text}."` on a singleton,
otherwise the initial sentence, a space, the `"This led to ..."` clause,
the `"which in turn caused ..."` clauses, joined by `", "` and terminated
by a single period. -/
def specNarrative : List CausalEvent → Option String
  | [] => none
  | [e] => some ("Initially, " ++ e.effect_text ++ ".")
  | e0 :: e1 :: rest =>
      some (("Initially, " ++ e0.effect_text ++ ".") ++ " " ++
        String.intercalate ", "
          (("This led to " ++ e1.effect_text ++ specParen e1) ::
            rest.map (fun e => "which in turn caused " ++ e.effect_text ++ specParen e)) ++
        ".")

/-- Python `str.lower` restricted to its ASCII behaviour, on the character
list of a string. -/
def pyLower (s : String) : String :=
  String.mk (s.data.map Char.toLower)

/-- Python `str.strip`: drop leading and trailing whitespace. -/
def pyStrip (s : String) : String :=
  String.mk (((s.data.dropWhile Char.isWhitespace).reverse.dropWhile
    Char.isWhitespace).reverse)

/-- Python `str.startswith`. -/
def pyStartswith (s pre : String) : Bool :=
  pre.data.isPrefixOf s.data

/-- Model of `CausalMemoryCore._judge_causality`, as a function of the raw
oracle response.  `resp = none` models an absent LLM client
(`if not self.llm`) as well as an API exception, both of which the code
converts to `None`.  Otherwise the response is stripped and rejected when
its lowercase form equals `"no."` or starts with `"no"`. -/
def judge_causality (resp : Option String) : Option String :=
  match resp with
  | none => none
  | some raw =>
      let result := pyStrip raw
      if pyLower result = "no." || pyStartswith (pyLower result) "no" then none
      else some result

/-- Model of the candidate window query in
`CausalMemoryCore._find_potential_causes`:
`WHERE timestamp > now - time_decay_hours ORDER BY timestamp DESC LIMIT 50`. -/
def recentRows (db : List CausalEvent) (now : Int) (time_decay_hours : Int) :
    List CausalEvent :=
  ((db.filter (fun e => decide (now - time_decay_hours * 3600 < e.timestamp))).mergeSort
    (fun a b => decide (b.timestamp ≤ a.timestamp))).take 50

/-- Model of the candidate-collecting loop of
`CausalMemoryCore._find_potential_causes`, parametric in the cosine
similarity kernel `cos` (`none` models the `denom == 0` skip).  The
identical-text skip, the shape-mismatch skip and the
`similarity >= similarity_threshold` test are modelled explicitly. -/
def candidatePairs (rows : List CausalEvent) (cos : List ℚ → List ℚ → Option ℚ)
    (emb : List ℚ) (effect_text : String) (thr : ℚ) : List (ℚ × CausalEvent) :=
  rows.filterMap (fun r =>
    if r.effect_text = effect_text then none
    else if r.embedding.length ≠ emb.length then none
    else
      match cos emb r.embedding with
      | none => none
      | some s => if thr ≤ s then some (s, r) else none)

/-- Model of the sort key of
`candidates.sort(key=lambda x: (x[0], x[1].timestamp), reverse=True)`:
`a` may precede `b` exactly when the key `(similarity, timestamp)` of `b`
is lexicographically at most the key of `a`. -/
def candLe (a b : ℚ × CausalEvent) : Bool :=
  decide (b.1 < a.1 ∨ (b.1 = a.1 ∧ b.2.timestamp ≤ a.2.timestamp))

/-- Model of the ranking tail of `CausalMemoryCore._find_potential_causes`:
stable sort by `(similarity, timestamp)` descending, then
`candidates[:max_potential_causes]`. -/
def rankedCandidates (rows : List CausalEvent) (cos : List ℚ → List ℚ → Option ℚ)
    (emb : List ℚ) (effect_text : String) (thr : ℚ) (maxc : Nat) :
    List (ℚ × CausalEvent) :=
  ((candidatePairs rows cos emb effect_text thr).mergeSort candLe).take maxc

/-- Model of `CausalMemoryCore._find_potential_causes`
(`return [e for _, e in candidates[:self.max_potential_causes]]`). -/
def find_potential_causes (rows : List CausalEvent)
    (cos : List ℚ → List ℚ → Option ℚ) (emb : List ℚ) (effect_text : String)
    (thr : ℚ) (maxc : Nat) : List CausalEvent :=
  (rankedCandidates rows cos emb effect_text thr maxc).map Prod.snd

/-- Model of the cause-selection loop in `CausalMemoryCore.add_event`:
iterate the ranked candidates in order; the first one whose judged
relationship is truthy (present and non-empty) supplies `cause_id` and
`relationship_text`; no backtracking. -/
def selectCause : List CausalEvent → (CausalEvent → Option String) →
    Option (Nat × String)
  | [], _ => none
  | c :: rest, judge =>
      match judge c with
      | some r => if r = "" then selectCause rest judge else some (c.event_id, r)
      | none => selectCause rest judge

/-- Truthiness of an optional relationship string, as Python's
`if relationship:` sees it. -/
def Truthy (o : Option String) : Prop :=
  ∃ r, o = some r ∧ r ≠ ""

/-- Ambient state of a `CausalMemoryCore` instance together with its two
external capabilities and the store outcome.  `embedder = none` models
`self.embedder is None`; an inner `none` from the embedder models an
exception raised by `encode`; `oracle` returning `none` models an absent
LLM client or an API error; `insertOk = false` models `_insert_event`
raising.  The defaults mirror `CausalMemoryCore.__init__`. -/
structure LinkCtx where
  depsAvailable : Bool := true
  connPresent : Bool := true
  embedder : Option (String → Option (List ℚ)) := none
  cosSim : List ℚ → List ℚ → Option ℚ := fun _ _ => none
  oracle : String → String → Option String := fun _ _ => none
  similarity_threshold : ℚ := 1/2
  max_potential_causes : Nat := 5
  time_decay_hours : Int := 24
  insertOk : Bool := true

/-- Model of `CausalMemoryCore._is_available`. -/
def is_available (ctx : LinkCtx) : Bool :=
  ctx.depsAvailable && ctx.connPresent && ctx.embedder.isSome

/-- Per-candidate judgment in `add_event`: `_judge_causality(cause,
effect_text)`, i.e. the response of the oracle on
`(candidate.effect_text, effect_text)` passed through `judge_causality`. -/
def oracleJudge (ctx : LinkCtx) (effect_text : String) :
    CausalEvent → Option String :=
  fun c => judge_causality (ctx.oracle c.effect_text effect_text)

/-- The cause chosen for a new event by the loop in
`CausalMemoryCore.add_event`: the first ranked candidate confirmed by the
oracle, if any. -/
def linkSelection (ctx : LinkCtx) (db : List CausalEvent) (effect_text : String)
    (now : Int) (emb : List ℚ) : Option (Nat × String) :=
  selectCause
    (find_potential_causes (recentRows db now ctx.time_decay_hours) ctx.cosSim
      emb effect_text ctx.similarity_threshold ctx.max_potential_causes)
    (oracleJudge ctx effect_text)

/-- Model of `CausalMemoryCore.add_event`.  Returns the success flag and
the database after the call.  Any exception inside the `try` block
(embedding failure, store failure) yields `(false, db)`; unavailability
yields `(false, db)` before the `try` block is entered. -/
def add_event (ctx : LinkCtx) (db : List CausalEvent) (effect_text : String)
    (now : Int) (nextId : Nat) : Bool × List CausalEvent :=
  if is_available ctx then
    match ctx.embedder with
    | none => (false, db)
    | some enc =>
        match enc effect_text with
        | none => (false, db)
        | some emb =>
            let sel := linkSelection ctx db effect_text now emb
            if ctx.insertOk then
              (true, db ++ [{ event_id := nextId, timestamp := now,
                              effect_text := effect_text, embedding := emb,
                              cause_id := sel.map Prod.fst,
                              relationship_text := sel.map Prod.snd }])
            else (false, db)
  else (false, db)

/-- Model of the ancestry `while` loop of
`CausalMemoryCore.get_causal_context`: follow `cause_id`, stopping when it
is unset, the referent is not found, or the referent's id was already
visited.  Termination: each step visits an event of `db` whose id was not
yet in `seen`, so the number of `db` rows with unvisited ids strictly
decreases. -/
def ascendLoop (db : List CausalEvent) (curr : CausalEvent) (seen : List Nat) :
    List CausalEvent :=
  match curr.cause_id with
  | none => []
  | some cid =>
      match h : get_event_by_id db cid with
      | none => []
      | some cause =>
          if hs : cause.event_id ∈ seen then []
          else cause :: ascendLoop db cause (cause.event_id :: seen)
termination_by (db.filter (fun e => decide (e.event_id ∉ seen))).length
decreasing_by
  have hmem : cause ∈ db := List.mem_of_find?_eq_some h
  obtain ⟨s, t, rfl⟩ := List.append_of_mem hmem
  simp only [List.filter_append, List.length_append, List.filter_cons]
  have hc1 : (decide (cause.event_id ∉ cause.event_id :: seen)) = false := by simp
  have hc2 : (decide (cause.event_id ∉ seen)) = true := by simpa using hs
  rw [hc1, hc2]
  simp only [Bool.false_eq_true, if_false, if_true, List.length_cons]
  have hmono : ∀ (l : List CausalEvent),
      (l.filter (fun e => decide (e.event_id ∉ cause.event_id :: seen))).length ≤
        (l.filter (fun e => decide (e.event_id ∉ seen))).length := by
    intro l
    rw [← List.countP_eq_length_filter, ← List.countP_eq_length_filter]
    refine List.countP_mono_left ?_
    intro x _ hx
    simp only [decide_eq_true_eq, List.mem_cons, not_or] at hx ⊢
    exact hx.2
  have h1 := hmono s
  have h2 := hmono t
  omega

/-- Model of the full ascend phase of `CausalMemoryCore.get_causal_context`:
`ancestry = [target] ++ walk`, `path = list(reversed(ancestry))`. -/
def causalPath (db : List CausalEvent) (target : CausalEvent) : List CausalEvent :=
  (target :: ascendLoop db target [target.event_id]).reverse

/-- Model of the consequence loop of `CausalMemoryCore.get_causal_context`:
`for _ in range(2)` following `_find_direct_effect`, stopping when no
child exists or the child's id already occurs in the ascend `path`. -/
def descendLoop (db : List CausalEvent) (path : List CausalEvent) :
    CausalEvent → Nat → List CausalEvent
  | _, 0 => []
  | frontier, n + 1 =>
      match find_direct_effect db frontier.event_id with
      | none => []
      | some child =>
          if child.event_id ∈ path.map (fun e => e.event_id) then []
          else child :: descendLoop db path child n

/-- Stop-word set of `ContextAnalyzer.__init__` (the Python set literal
lists `'her'` twice; a set keeps one copy). -/
def stop_words : List String :=
  ["the", "a", "an", "and", "or", "but", "in", "on", "at", "to", "for",
   "of", "with", "by", "is", "are", "was", "were", "be", "been", "being",
   "have", "has", "had", "do", "does", "did", "will", "would", "could",
   "should", "may", "might", "can", "shall", "this", "that", "these",
   "those", "i", "you", "he", "she", "it", "we", "they", "me", "him",
   "her", "us", "them", "my", "your", "his", "its", "our", "their"]

/-- Word characters of the regex `\b` boundary (`[a-zA-Z0-9_]`; the
sources only ever tokenize ASCII text). -/
def isWordChar (c : Char) : Bool :=
  c.isAlpha || c.isDigit || c = '_'

/-- Maximal runs of word characters of a character list (auxiliary for the
regex model; `acc` holds the reversed run currently being read). -/
def wordRunsAux : List Char → List Char → List (List Char)
  | [], acc => if acc = [] then [] else [acc.reverse]
  | c :: cs, acc =>
      if isWordChar c then wordRunsAux cs (c :: acc)
      else if acc = [] then wordRunsAux cs []
      else acc.reverse :: wordRunsAux cs []

/-- Model of `re.findall(r'\b[a-zA-Z]{3,}\b', text.lower())`: a match is a
maximal run of word characters that consists entirely of letters and has
length at least 3 (shorter runs, and runs containing digits or
underscores, have no word boundary inside them). -/
def findWords (s : String) : List String :=
  ((wordRunsAux (pyLower s).data []).filter
    (fun r => decide (3 ≤ r.length) && r.all Char.isAlpha)).map String.mk

/-- Model of `set(re.findall(...)) - self.stop_words`: the deduplicated
tokens with stop words removed, as a duplicate-free list. -/
def tokenSet (s : String) : List String :=
  (findWords s).eraseDups.filter (fun w => !stop_words.contains w)

/-- Model of a historical conversation dict as
`ContextAnalyzer.calculate_relevance_score` reads it: its `'directive'`
text, its `'created_at'` timestamp (rational seconds), and the
`'relevance_score'` key that `filter_relevant_context` writes. -/
structure HistEntry where
  directive : String
  created_at : ℚ
  relevance_score : Option ℚ := none
deriving Repr, DecidableEq

/-- Model of `ContextAnalyzer.calculate_relevance_score` (`now` models
`datetime.utcnow()` in rational seconds). -/
def calculate_relevance_score (current_directive : String) (hist : HistEntry)
    (now : ℚ) : ℚ :=
  if current_directive = "" then 0
  else
    let w1 := tokenSet current_directive
    let w2 := tokenSet hist.directive
    if w1 = [] ∧ w2 = [] then 0
    else
      let inter := w1.filter (fun w => w2.contains w)
      let union := w1 ++ w2.filter (fun w => !w1.contains w)
      if union = [] then 0
      else
        let similarity : ℚ := (inter.length : ℚ) / (union.length : ℚ)
        let age_hours : ℚ := (now - hist.created_at) / 3600
        let time_decay : ℚ := max 0 (1 - age_hours / 24)
        similarity * time_decay

/-- Jaccard index as the specification words it: `|W1∩W2| / |W1∪W2|`, and
0 when the union (in particular, when both sets) is empty. -/
def jaccard (w1 w2 : List String) : ℚ :=
  let u := w1 ++ w2.filter (fun w => !w1.contains w)
  if u = [] then 0 else ((w1.filter (fun w => w2.contains w)).length : ℚ) / (u.length : ℚ)

/-- Time decay as the specification words it:
`max(0, 1 − age_hours / max_age_hours)` with `max_age_hours = 24`. -/
def timeDecay (age_hours : ℚ) : ℚ :=
  max 0 (1 - age_hours / 24)

/-- Relevance threshold `ContextAnalyzer.similarity_threshold = 0.7`. -/
def contextThreshold : ℚ := 7/10

/-- Model of one iteration of the loop of
`ContextAnalyzer.filter_relevant_context`: the entry after the iteration
(mutated in place when kept) and whether it was appended to the result. -/
def filterStep (current_directive : String) (now : ℚ) (e : HistEntry) :
    HistEntry × Bool :=
  let s := calculate_relevance_score current_directive e now
  if contextThreshold ≤ s then ({ e with relevance_score := some s }, true)
  else (e, false)

/-- Descending comparison on the attached scores, the key of
`relevant_context.sort(key=lambda x: x.get('relevance_score', 0),
reverse=True)`. -/
def scoreLe (a b : HistEntry) : Bool :=
  decide (b.relevance_score.getD 0 ≤ a.relevance_score.getD 0)

/-- Model of `ContextAnalyzer.filter_relevant_context`.  The first
component is the caller's list after the call (the loop mutates kept
entries in place); the second is the returned list: the kept entries,
stably sorted by score descending. -/
def filter_relevant_context (current_directive : String)
    (entries : List HistEntry) (now : ℚ) : List HistEntry × List HistEntry :=
  let stepped := entries.map (filterStep current_directive now)
  (stepped.map Prod.fst, ((stepped.filter Prod.snd).map Prod.fst).mergeSort scoreLe)

/-- Model of `BoundedSessionCache`: the LRU map (most recent first), the
insertion-timestamp map, and the configured bounds.  Timestamps and the
TTL are rational seconds. -/
structure SessionCache (α : Type) where
  cache : List (String × α) := []
  timestamps : List (String × ℚ) := []
  maxsize : Nat := 1000
  ttl : ℚ := 300

/-- Removal of a key from an association list (`pop`/LRU-reorder helper). -/
def eraseKey {α : Type} (l : List (String × α)) (k : String) : List (String × α) :=
  l.filter (fun p => !(p.1 == k))

/-- Model of `BoundedSessionCache.get`: a fresh hit returns the value and
refreshes LRU recency only; a stale entry is evicted from both maps and
`none` is returned; a miss returns `none`. -/
def SessionCache.get {α : Type} (st : SessionCache α) (key : String) (now : ℚ) :
    Option α × SessionCache α :=
  match st.cache.lookup key with
  | some v =>
      if now - (st.timestamps.lookup key).getD 0 < st.ttl then
        (some v, { st with cache := (key, v) :: eraseKey st.cache key })
      else
        (none, { st with cache := eraseKey st.cache key,
                         timestamps := eraseKey st.timestamps key })
  | none => (none, st)

/-- Model of `BoundedSessionCache.set`: insert or overwrite with a fresh
insertion timestamp; a new key at capacity evicts the least recently used
entry. -/
def SessionCache.set {α : Type} (st : SessionCache α) (key : String) (v : α)
    (now : ℚ) : SessionCache α :=
  let c := eraseKey st.cache key
  let c := if st.maxsize ≤ c.length then c.dropLast else c
  { st with cache := (key, v) :: c,
            timestamps := (key, now) :: eraseKey st.timestamps key }

/-- Core state in which the dependencies and the store are present but the
embedding service is unavailable (`self.embedder is None`), while the
store would accept an insert. -/
def ctxNoEmbedder : LinkCtx := {}

/-- Embedding service that always returns the one-dimensional vector `[1]`. -/
def constEmbedder : String → Option (List ℚ) :=
  fun _ => some [1]

/-- Core state with a working embedding service, a working store, and an
unavailable causality oracle. -/
def ctxEmbOnly : LinkCtx := { embedder := some constEmbedder }

/-- Event `A` of the deliberately cyclic cause graph `A→B→A`. -/
def evA : CausalEvent :=
  { event_id := 1, timestamp := 0, effect_text := "A", embedding := [1],
    cause_id := some 2 }

/-- Event `B` of the deliberately cyclic cause graph `A→B→A`. -/
def evB : CausalEvent :=
  { event_id := 2, timestamp := 1, effect_text := "B", embedding := [1],
    cause_id := some 1 }

/-- The deliberately cyclic two-event store `A→B→A`. -/
def cyclicDb : List CausalEvent := [evA, evB]

theorem relClause_eq_specParen (e : CausalEvent)
    (h : e.relationship_text ≠ some "") : relClause e = specParen e := by
  unfold relClause specParen
  match he : e.relationship_text with
  | none => rfl
  | some r =>
      rw [he] at h
      have hr : ¬ (r = "") := fun hr => h (by rw [hr])
      show (if r = "" then "" else " (" ++ r ++ ")") = " (" ++ r ++ ")"
      rw [if_neg hr]

theorem buildClauses_eq_spec (e1 : CausalEvent) (rest : List CausalEvent)
    (h : ∀ e ∈ e1 :: rest, e.relationship_text ≠ some "") :
    buildClauses (e1 :: rest) =
      ("This led to " ++ e1.effect_text ++ specParen e1) ::
        rest.map (fun e => "which in turn caused " ++ e.effect_text ++ specParen e) := by
  simp only [buildClauses]
  rw [relClause_eq_specParen e1 (h e1 (List.mem_cons_self e1 rest))]
  refine congrArg _ (List.map_congr_left ?_)
  intro e he
  rw [relClause_eq_specParen e (h e (List.mem_cons_of_mem e1 he))]

/-- C3: for every non-empty chain, `_format_chain_as_narrative` renders
exactly the narrative the specification describes — `"Initially, {text}."`
for a singleton, and otherwise the initial sentence followed by a space,
the `"This led to ..."` clause, then `"which in turn caused ..."` clauses,
joined by `", "` and terminated by a single period (the hypothesis that no
stored relationship text is the empty string holds for every event written
by `add_event`, which only stores truthy relationship strings). -/
theorem narrative_rendering_matches_spec (chain : List CausalEvent)
    (hne : chain ≠ [])
    (hrel : ∀ e ∈ chain, e.relationship_text ≠ some "") :
    specNarrative chain = some (format_chain_as_narrative chain) := by
  match chain with
  | [] => exact absurd rfl hne
  | [e] => rfl
  | e0 :: e1 :: rest =>
      have hclauses := buildClauses_eq_spec e1 rest
        (fun e he => hrel e (List.mem_cons_of_mem e0 he))
      simp only [specNarrative, format_chain_as_narrative]
      rw [hclauses, if_neg (List.cons_ne_nil _ _)]

/-- Witness for C3 at the concrete two-event chain `[evA, evB]`. -/
theorem narrative_rendering_matches_spec_witness :
    specNarrative [evA, evB] = some (format_chain_as_narrative [evA, evB]) :=
  narrative_rendering_matches_spec [evA, evB] (by simp)
    (by intro e he; fin_cases he <;> simp [evA, evB])

/-- C9: `_judge_causality` strips the oracle response and reports no
relationship exactly when the lowercased result starts with `"no"`
(including non-empty responses such as one starting with `"Notably"`), so
only responses not beginning with `"no"` case-insensitively are ever
returned as relationship text; an absent or failed oracle also yields no
relationship. -/
theorem judge_causality_rejects_no (raw : String) :
    judge_causality none = none ∧
    (judge_causality (some raw) = none ↔
      pyStartswith (pyLower (pyStrip raw)) "no" = true) ∧
    (∀ s, judge_causality (some raw) = some s →
      s = pyStrip raw ∧ pyStartswith (pyLower s) "no" = false) ∧
    judge_causality (some "Notably, the deploy caused the outage.") = none := by
  refine ⟨rfl, ?_, ?_, by decide⟩
  · simp only [judge_causality]
    by_cases hpre : pyStartswith (pyLower (pyStrip raw)) "no" = true
    · simp [hpre]
    · have hne : ¬ (pyLower (pyStrip raw) = "no.") := fun he => hpre (by rw [he]; decide)
      simp [hpre, hne]
  · intro s hs
    simp only [judge_causality] at hs
    by_cases hpre : pyStartswith (pyLower (pyStrip raw)) "no" = true
    · simp [hpre] at hs
    · have hne : ¬ (pyLower (pyStrip raw) = "no.") := fun he => hpre (by rw [he]; decide)
      simp [hpre, hne] at hs
      refine ⟨hs.symm, ?_⟩
      rw [← hs]
      simpa using hpre

/-- Witness for C9: a response beginning with `"no"` yields no
relationship. -/
theorem judge_causality_rejects_no_witness :
    judge_causality (some "no way") = none :=
  (judge_causality_rejects_no "no way").2.1.mpr (by decide)

theorem ascendLoop_cons (db : List CausalEvent) (curr : CausalEvent) (seen : List Nat)
    (cid : Nat) (hsome : curr.cause_id = some cid) (cause : CausalEvent)
    (hget : get_event_by_id db cid = some cause) (hs : cause.event_id ∉ seen) :
    ascendLoop db curr seen = cause :: ascendLoop db cause (cause.event_id :: seen) := by
  rw [ascendLoop.eq_def]
  split
  · next heq => rw [hsome] at heq; exact absurd heq (by simp)
  · next c heq =>
      rw [hsome] at heq
      cases heq
      split
      · next heq2 => rw [hget] at heq2; exact absurd heq2 (by simp)
      · next c2 heq2 =>
          rw [hget] at heq2
          cases heq2
          rw [dif_neg hs]

theorem ascendLoop_nil_of_none (db : List CausalEvent) (curr : CausalEvent) (seen : List Nat)
    (hnone : curr.cause_id = none) : ascendLoop db curr seen = [] := by
  rw [ascendLoop.eq_def, hnone]

theorem ascendLoop_nil_of_missing (db : List CausalEvent) (curr : CausalEvent) (seen : List Nat)
    (cid : Nat) (hsome : curr.cause_id = some cid)
    (hget : get_event_by_id db cid = none) : ascendLoop db curr seen = [] := by
  rw [ascendLoop.eq_def]
  split
  · rfl
  · next c heq =>
      rw [hsome] at heq
      cases heq
      split
      · rfl
      · next c2 heq2 => rw [hget] at heq2; exact absurd heq2 (by simp)

theorem ascendLoop_nil_of_seen (db : List CausalEvent) (curr : CausalEvent) (seen : List Nat)
    (cid : Nat) (hsome : curr.cause_id = some cid) (cause : CausalEvent)
    (hget : get_event_by_id db cid = some cause) (hs : cause.event_id ∈ seen) :
    ascendLoop db curr seen = [] := by
  rw [ascendLoop.eq_def]
  split
  · rfl
  · next c heq =>
      rw [hsome] at heq
      cases heq
      split
      · rfl
      · next c2 heq2 =>
          rw [hget] at heq2
          cases heq2
          rw [dif_pos hs]

theorem ascendLoop_invariant (db : List CausalEvent) (curr : CausalEvent)
    (seen : List Nat) :
    (∀ e ∈ ascendLoop db curr seen, e.event_id ∉ seen) ∧
    ((ascendLoop db curr seen).map (fun e => e.event_id)).Nodup := by
  induction curr, seen using ascendLoop.induct db with
  | case1 curr seen hnone =>
      rw [ascendLoop_nil_of_none db curr seen hnone]; simp
  | case2 curr seen cid hsome hget =>
      rw [ascendLoop_nil_of_missing db curr seen cid hsome hget]; simp
  | case3 curr seen cid hsome cause hget hs =>
      rw [ascendLoop_nil_of_seen db curr seen cid hsome cause hget hs]; simp
  | case4 curr seen cid hsome cause hget hs ih =>
      rw [ascendLoop_cons db curr seen cid hsome cause hget hs]
      obtain ⟨ih1, ih2⟩ := ih
      constructor
      · intro e he
        rcases List.mem_cons.mp he with rfl | he2
        · exact hs
        · exact fun hin => ih1 e he2 (List.mem_cons_of_mem _ hin)
      · simp only [List.map_cons, List.nodup_cons]
        refine ⟨?_, ih2⟩
        intro hin
        obtain ⟨e, he, heq⟩ := List.mem_map.mp hin
        exact ih1 e he (by rw [heq]; exact List.mem_cons_self _ _)

theorem ascendLoop_eq_nil_iff (db : List CausalEvent) (curr : CausalEvent)
    (seen : List Nat) :
    ascendLoop db curr seen = [] ↔
      (curr.cause_id = none ∨ ∃ cid, curr.cause_id = some cid ∧
        (get_event_by_id db cid = none ∨
          ∃ c, get_event_by_id db cid = some c ∧ c.event_id ∈ seen)) := by
  constructor
  · intro h
    match hsome : curr.cause_id with
    | none => exact Or.inl rfl
    | some cid =>
        refine Or.inr ⟨cid, rfl, ?_⟩
        match hget : get_event_by_id db cid with
        | none => exact Or.inl rfl
        | some cause =>
            refine Or.inr ⟨cause, rfl, ?_⟩
            by_contra hs
            rw [ascendLoop_cons db curr seen cid hsome cause hget hs] at h
            exact List.cons_ne_nil _ _ h
  · rintro (hnone | ⟨cid, hsome, hget | ⟨c, hget, hmem⟩⟩)
    · exact ascendLoop_nil_of_none db curr seen hnone
    · exact ascendLoop_nil_of_missing db curr seen cid hsome hget
    · exact ascendLoop_nil_of_seen db curr seen cid hsome c hget hmem

theorem causalPath_id_nodup (db : List CausalEvent) (target : CausalEvent) :
    ((causalPath db target).map (fun e => e.event_id)).Nodup := by
  unfold causalPath
  rw [List.map_reverse, List.nodup_reverse]
  simp only [List.map_cons, List.nodup_cons]
  obtain ⟨h1, h2⟩ := ascendLoop_invariant db target [target.event_id]
  refine ⟨?_, h2⟩
  intro hin
  obtain ⟨e, he, heq⟩ := List.mem_map.mp hin
  exact h1 e he (by rw [heq]; exact List.mem_cons_self _ _)

/-- C4: the ancestry walk of `get_causal_context` is a total function that
visits each event id at most once, and it stops exactly when `cause_id` is
unset, the referent cannot be found, or the referent's id was already
visited; on the deliberately cyclic store `A→B→A` it returns the finite
root-first chain `[B, A]`. -/
theorem ancestry_walk_terminates (db : List CausalEvent) (target : CausalEvent) :
    ((causalPath db target).map (fun e => e.event_id)).Nodup ∧
    (∀ curr seen, ascendLoop db curr seen = [] ↔
      (curr.cause_id = none ∨ ∃ cid, curr.cause_id = some cid ∧
        (get_event_by_id db cid = none ∨
          ∃ c, get_event_by_id db cid = some c ∧ c.event_id ∈ seen))) ∧
    (causalPath cyclicDb evA).map (fun e => e.event_id) = [2, 1] := by
  refine ⟨causalPath_id_nodup db target,
    fun curr seen => ascendLoop_eq_nil_iff db curr seen, ?_⟩
  simp [causalPath, ascendLoop, get_event_by_id, evA, evB, cyclicDb, List.find?]

theorem find_direct_effect_foldl_aux (l : List CausalEvent)
    (acc : Option CausalEvent) (e : CausalEvent)
    (h : l.foldl (fun acc x =>
      match acc with
      | none => some x
      | some b => if x.timestamp < b.timestamp then some x else some b) acc = some e) :
    e ∈ l ∨ acc = some e := by
  induction l generalizing acc with
  | nil => exact Or.inr h
  | cons a t ih =>
      rw [List.foldl_cons] at h
      rcases ih _ h with hmem | hacc
      · exact Or.inl (List.mem_cons_of_mem a hmem)
      · cases acc with
        | none =>
            have h2 : some a = some e := hacc
            cases h2
            exact Or.inl (List.mem_cons_self _ _)
        | some b =>
            have h2 : (if a.timestamp < b.timestamp then some a else some b) = some e :=
              hacc
            by_cases hlt : a.timestamp < b.timestamp
            · rw [if_pos hlt] at h2
              cases h2
              exact Or.inl (List.mem_cons_self _ _)
            · rw [if_neg hlt] at h2
              exact Or.inr h2

theorem find_direct_effect_spec (db : List CausalEvent) (cid : Nat)
    (e : CausalEvent) (h : find_direct_effect db cid = some e) :
    e ∈ db ∧ e.cause_id = some cid := by
  unfold find_direct_effect at h
  rcases find_direct_effect_foldl_aux _ none e h with hmem | habs
  · have hm := List.mem_filter.mp hmem
    exact ⟨hm.1, of_decide_eq_true hm.2⟩
  · exact absurd habs (by simp)

theorem descendLoop_not_in_path (db : List CausalEvent) (path : List CausalEvent) :
    ∀ (fuel : Nat) (frontier : CausalEvent), ∀ e ∈ descendLoop db path frontier fuel,
      e.event_id ∉ path.map (fun x => x.event_id) := by
  intro fuel
  induction fuel with
  | zero => intro frontier e he; simp [descendLoop] at he
  | succ n ih =>
      intro frontier e he
      rw [descendLoop] at he
      rcases hfde : find_direct_effect db frontier.event_id with _ | child
      · rw [hfde] at he; simp at he
      · rw [hfde] at he
        have he3 : e ∈ (if child.event_id ∈ path.map (fun x => x.event_id) then
            ([] : List CausalEvent) else child :: descendLoop db path child n) := he
        by_cases hm : child.event_id ∈ path.map (fun x => x.event_id)
        · rw [if_pos hm] at he3; simp at he3
        · rw [if_neg hm] at he3
          rcases List.mem_cons.mp he3 with rfl | he2
          · exact hm
          · exact ih child e he2

theorem descendLoop_length_le (db : List CausalEvent) (path : List CausalEvent) :
    ∀ (fuel : Nat) (frontier : CausalEvent),
      (descendLoop db path frontier fuel).length ≤ fuel := by
  intro fuel
  induction fuel with
  | zero => intro frontier; simp [descendLoop]
  | succ n ih =>
      intro frontier
      rw [descendLoop]
      rcases hfde : find_direct_effect db frontier.event_id with _ | child
      · simp
      · by_cases hm : child.event_id ∈ path.map (fun x => x.event_id)
        · simp [hm]
        · simp only [if_neg hm, List.length_cons]
          exact Nat.succ_le_succ (ih child)

theorem descendLoop_two_nodup (db : List CausalEvent) (path : List CausalEvent)
    (target : CausalEvent) (hnd : (db.map (fun e => e.event_id)).Nodup)
    (htarget : target.event_id ∈ path.map (fun x => x.event_id)) :
    ((descendLoop db path target 2).map (fun e => e.event_id)).Nodup := by
  rcases h1 : find_direct_effect db target.event_id with _ | c1
  · simp [descendLoop, h1]
  · by_cases hm1 : c1.event_id ∈ path.map (fun x => x.event_id)
    · simp [descendLoop, h1, hm1]
    · rcases h2 : find_direct_effect db c1.event_id with _ | c2
      · simp [descendLoop, h1, hm1, h2]
      · by_cases hm2 : c2.event_id ∈ path.map (fun x => x.event_id)
        · simp [descendLoop, h1, hm1, h2, hm2]
        · simp only [descendLoop, h1, hm1, h2, hm2, if_neg, List.map_cons,
            List.map_nil, List.nodup_cons, List.mem_cons, List.mem_singleton,
            List.not_mem_nil, not_false_eq_true, and_true, List.nodup_nil,
            not_or]
          have hc1 := find_direct_effect_spec db target.event_id c1 h1
          have hc2 := find_direct_effect_spec db c1.event_id c2 h2
          intro heq
          have hcc : c1 = c2 := List.inj_on_of_nodup_map hnd hc1.1 hc2.1 heq
          have hself : c1.cause_id = some c1.event_id := by
            rw [hcc, ← heq]
            exact hc2.2
          have hts : c1.event_id = target.event_id := by
            have := hc1.2
            rw [hself] at this
            exact Option.some_injective _ this
          exact hm1 (by rw [hts]; exact htarget)

/-- C5: the descend walk of `get_causal_context` performs at most 2 hops,
and (given the store's unique event ids) no event id occurs twice in the
combined ascend-plus-descend sequence. -/
theorem descend_walk_bounded (db : List CausalEvent) (target : CausalEvent)
    (hnd : (db.map (fun e => e.event_id)).Nodup) :
    (descendLoop db (causalPath db target) target 2).length ≤ 2 ∧
    ((causalPath db target ++ descendLoop db (causalPath db target) target 2).map
      (fun e => e.event_id)).Nodup := by
  refine ⟨descendLoop_length_le db (causalPath db target) 2 target, ?_⟩
  rw [List.map_append, List.nodup_append]
  have htarget : target.event_id ∈ (causalPath db target).map (fun x => x.event_id) := by
    refine List.mem_map.mpr ⟨target, ?_, rfl⟩
    unfold causalPath
    rw [List.mem_reverse]
    exact List.mem_cons_self _ _
  refine ⟨causalPath_id_nodup db target,
    descendLoop_two_nodup db (causalPath db target) target hnd htarget, ?_⟩
  intro a ha hb
  obtain ⟨e, he, heq⟩ := List.mem_map.mp hb
  exact descendLoop_not_in_path db (causalPath db target) 2 target e he (heq ▸ ha)

/-- Witness for C5 at the concrete cyclic store `A→B→A` (whose event ids
are distinct). -/
theorem descend_walk_bounded_witness :
    (descendLoop cyclicDb (causalPath cyclicDb evA) evA 2).length ≤ 2 ∧
    ((causalPath cyclicDb evA ++
      descendLoop cyclicDb (causalPath cyclicDb evA) evA 2).map
      (fun e => e.event_id)).Nodup :=
  descend_walk_bounded cyclicDb evA (by decide)

theorem not_truthy_cases (o : Option String) (h : ¬ Truthy o) :
    o = none ∨ o = some "" := by
  rcases o with _ | r
  · exact Or.inl rfl
  · right
    by_contra hne
    exact h ⟨r, rfl, fun hr => hne (by rw [hr])⟩

theorem selectCause_cons_none (c : CausalEvent) (rest : List CausalEvent)
    (judge : CausalEvent → Option String) (hj : judge c = none) :
    selectCause (c :: rest) judge = selectCause rest judge := by
  simp only [selectCause, hj]

theorem selectCause_cons_empty (c : CausalEvent) (rest : List CausalEvent)
    (judge : CausalEvent → Option String) (hj : judge c = some "") :
    selectCause (c :: rest) judge = selectCause rest judge := by
  simp only [selectCause, hj, if_pos]

theorem selectCause_cons_truthy (c : CausalEvent) (rest : List CausalEvent)
    (judge : CausalEvent → Option String) (r : String) (hj : judge c = some r)
    (hr : r ≠ "") : selectCause (c :: rest) judge = some (c.event_id, r) := by
  simp only [selectCause, hj]
  rw [if_neg hr]

theorem selectCause_skip (pre rest : List CausalEvent)
    (judge : CausalEvent → Option String)
    (h : ∀ p ∈ pre, ¬ Truthy (judge p)) :
    selectCause (pre ++ rest) judge = selectCause rest judge := by
  induction pre with
  | nil => rfl
  | cons c t ih =>
      have hc := h c (List.mem_cons_self c t)
      rw [List.cons_append]
      rcases not_truthy_cases _ hc with hj | hj
      · rw [selectCause_cons_none c (t ++ rest) judge hj]
        exact ih (fun p hp => h p (List.mem_cons_of_mem c hp))
      · rw [selectCause_cons_empty c (t ++ rest) judge hj]
        exact ih (fun p hp => h p (List.mem_cons_of_mem c hp))

theorem selectCause_none_of_all (l : List CausalEvent)
    (judge : CausalEvent → Option String)
    (h : ∀ c ∈ l, ¬ Truthy (judge c)) : selectCause l judge = none := by
  have hskip := selectCause_skip l [] judge h
  rw [List.append_nil] at hskip
  exact hskip

theorem candLe_trans (a b c : ℚ × CausalEvent) (hab : candLe a b)
    (hbc : candLe b c) : candLe a c := by
  simp only [candLe, decide_eq_true_eq] at hab hbc ⊢
  rcases hab with h1 | ⟨h1, h2⟩ <;> rcases hbc with h3 | ⟨h3, h4⟩
  · exact Or.inl (lt_trans h3 h1)
  · exact Or.inl (by rw [h3]; exact h1)
  · exact Or.inl (by rw [← h1]; exact h3)
  · exact Or.inr ⟨h3.trans h1, le_trans h4 h2⟩

theorem candLe_total (a b : ℚ × CausalEvent) : candLe a b || candLe b a := by
  simp only [candLe, Bool.or_eq_true, decide_eq_true_eq]
  rcases lt_trichotomy a.1 b.1 with h | h | h
  · exact Or.inr (Or.inl h)
  · rcases le_total a.2.timestamp b.2.timestamp with ht | ht
    · exact Or.inr (Or.inr ⟨h, ht⟩)
    · exact Or.inl (Or.inr ⟨h.symm, ht⟩)
  · exact Or.inl (Or.inl h)

theorem mem_candidatePairs (rows : List CausalEvent)
    (cos : List ℚ → List ℚ → Option ℚ) (emb : List ℚ) (effect_text : String)
    (thr : ℚ) (p : ℚ × CausalEvent)
    (hp : p ∈ candidatePairs rows cos emb effect_text thr) :
    cos emb p.2.embedding = some p.1 ∧ thr ≤ p.1 ∧
      p.2.effect_text ≠ effect_text := by
  unfold candidatePairs at hp
  obtain ⟨r, _, hr⟩ := List.mem_filterMap.mp hp
  by_cases h1 : r.effect_text = effect_text
  · rw [if_pos h1] at hr; exact absurd hr (by simp)
  · rw [if_neg h1] at hr
    by_cases h2 : r.embedding.length ≠ emb.length
    · rw [if_pos h2] at hr; exact absurd hr (by simp)
    · rw [if_neg h2] at hr
      rcases hcos : cos emb r.embedding with _ | s
      · rw [hcos] at hr; exact absurd hr (by simp)
      · rw [hcos] at hr
        have hr2 : (if thr ≤ s then some (s, r) else none) = some p := hr
        by_cases h3 : thr ≤ s
        · rw [if_pos h3] at hr2
          have hpr : (s, r) = p := by simpa using hr2
          rw [← hpr]
          exact ⟨hcos, h3, h1⟩
        · rw [if_neg h3] at hr2; exact absurd hr2 (by simp)

theorem add_event_of_unavailable (ctx : LinkCtx) (db : List CausalEvent)
    (effect_text : String) (now : Int) (nextId : Nat)
    (h : is_available ctx = false) :
    add_event ctx db effect_text now nextId = (false, db) := by
  unfold add_event
  rw [if_neg (by simp [h])]

theorem add_event_of_embed_fail (ctx : LinkCtx) (db : List CausalEvent)
    (effect_text : String) (now : Int) (nextId : Nat)
    (enc : String → Option (List ℚ)) (henc : ctx.embedder = some enc)
    (hnone : enc effect_text = none) :
    add_event ctx db effect_text now nextId = (false, db) := by
  unfold add_event
  by_cases ha : is_available ctx = true
  · rw [if_pos ha]
    split
    · rfl
    · next enc2 heq =>
        rw [henc] at heq
        cases heq
        split
        · rfl
        · next emb heq2 => rw [hnone] at heq2; exact absurd heq2 (by simp)
  · rw [if_neg ha]

theorem add_event_of_success (ctx : LinkCtx) (db : List CausalEvent)
    (effect_text : String) (now : Int) (nextId : Nat)
    (enc : String → Option (List ℚ)) (emb : List ℚ)
    (ha : is_available ctx = true) (henc : ctx.embedder = some enc)
    (hemb : enc effect_text = some emb) (hins : ctx.insertOk = true) :
    add_event ctx db effect_text now nextId =
      (true, db ++ [{ event_id := nextId, timestamp := now,
                      effect_text := effect_text, embedding := emb,
                      cause_id := (linkSelection ctx db effect_text now
                        emb).map Prod.fst,
                      relationship_text := (linkSelection ctx db effect_text
                        now emb).map Prod.snd }]) := by
  unfold add_event
  rw [if_pos ha]
  split
  · next heq => rw [henc] at heq; exact absurd heq (by simp)
  · next enc2 heq =>
      rw [henc] at heq
      cases heq
      split
      · next heq2 => rw [hemb] at heq2; exact absurd heq2 (by simp)
      · next emb2 heq2 =>
          rw [hemb] at heq2
          cases heq2
          rw [if_pos (by simp [hins])]

theorem add_event_of_insert_fail (ctx : LinkCtx) (db : List CausalEvent)
    (effect_text : String) (now : Int) (nextId : Nat)
    (hins : ctx.insertOk = false) :
    (add_event ctx db effect_text now nextId).1 = false := by
  unfold add_event
  by_cases ha : is_available ctx = true
  · rw [if_pos ha]
    split
    · rfl
    · next enc heq =>
        split
        · rfl
        · next emb heq2 =>
            rw [if_neg (by simp [hins])]
  · rw [if_neg ha]

/-- C2: surviving candidates are ranked by `(similarity desc, timestamp
desc)` and capped at `max_potential_causes`; the ranked list is iterated
in order, the first candidate with a truthy judged relationship supplies
the stored `cause_id`/`relationship_text` (no backtracking), an oracle
error or unavailability on a candidate counts as no relationship for it,
and when no candidate is confirmed the event is stored with both fields
unset. -/
theorem ranked_first_confirmed_selection (rows : List CausalEvent)
    (cos : List ℚ → List ℚ → Option ℚ) (emb : List ℚ) (effect_text : String)
    (thr : ℚ) (maxc : Nat) (judge : CausalEvent → Option String) :
    (rankedCandidates rows cos emb effect_text thr maxc).Pairwise
      (fun a b => candLe a b = true) ∧
    (find_potential_causes rows cos emb effect_text thr maxc).length ≤ maxc ∧
    (∀ p ∈ rankedCandidates rows cos emb effect_text thr maxc,
      cos emb p.2.embedding = some p.1 ∧ thr ≤ p.1 ∧
        p.2.effect_text ≠ effect_text) ∧
    (∀ pre c post,
      find_potential_causes rows cos emb effect_text thr maxc = pre ++ c :: post →
      (∀ p ∈ pre, ¬ Truthy (judge p)) → ∀ r, judge c = some r → r ≠ "" →
      selectCause (find_potential_causes rows cos emb effect_text thr maxc) judge =
        some (c.event_id, r)) ∧
    ((∀ c ∈ find_potential_causes rows cos emb effect_text thr maxc,
        ¬ Truthy (judge c)) →
      selectCause (find_potential_causes rows cos emb effect_text thr maxc) judge =
        none) ∧
    judge_causality none = none ∧
    (∀ (ctx : LinkCtx) (db : List CausalEvent) (now : Int) (nextId : Nat) enc,
      is_available ctx = true → ctx.embedder = some enc →
      enc effect_text = some emb → ctx.insertOk = true →
      add_event ctx db effect_text now nextId =
        (true, db ++ [{ event_id := nextId, timestamp := now,
                        effect_text := effect_text, embedding := emb,
                        cause_id := (linkSelection ctx db effect_text now
                          emb).map Prod.fst,
                        relationship_text := (linkSelection ctx db effect_text
                          now emb).map Prod.snd }])) := by
  refine ⟨?_, ?_, ?_, ?_, ?_, rfl, ?_⟩
  · exact List.Pairwise.sublist (List.take_sublist _ _)
      (List.sorted_mergeSort candLe_trans candLe_total _)
  · simp only [find_potential_causes, rankedCandidates, List.length_map,
      List.length_take]
    exact min_le_left _ _
  · intro p hp
    unfold rankedCandidates at hp
    have hp2 : p ∈ (candidatePairs rows cos emb effect_text thr).mergeSort candLe :=
      List.mem_of_mem_take hp
    exact mem_candidatePairs rows cos emb effect_text thr p
      (List.mem_mergeSort.mp hp2)
  · intro pre c post hsplit hpre r hj hr
    rw [hsplit, selectCause_skip pre (c :: post) judge hpre,
      selectCause_cons_truthy c post judge r hj hr]
  · intro hall
    exact selectCause_none_of_all _ judge hall
  · intro ctx db now nextId enc havail henc hemb hins
    exact add_event_of_success ctx db effect_text now nextId enc emb havail
      henc hemb hins

/-- Witness for C2: on a single surviving candidate confirmed by the
oracle, the selection is that candidate with its relationship text. -/
theorem ranked_first_confirmed_selection_witness :
    selectCause
      (find_potential_causes [evB] (fun _ _ => some 1) [1] "C" (1/2) 5)
      (fun _ => some "B led to C") = some (2, "B led to C") := by
  have h := (ranked_first_confirmed_selection [evB] (fun _ _ => some 1) [1] "C"
    (1/2) 5 (fun _ => some "B led to C")).2.2.2.1
  have hcp : candidatePairs [evB] (fun _ _ => some 1) [1] "C" (1/2) = [(1, evB)] := by
    simp only [candidatePairs, List.filterMap_cons, List.filterMap_nil, evB]
    rw [if_neg (by decide : ¬("B" : String) = "C")]
    rw [if_neg (by decide : ¬([(1 : ℚ)].length ≠ [(1 : ℚ)].length))]
    rw [if_pos (by norm_num : (1 : ℚ)/2 ≤ 1)]
  have hfpc : find_potential_causes [evB] (fun _ _ => some 1) [1] "C" (1/2) 5 =
      [] ++ evB :: [] := by
    unfold find_potential_causes rankedCandidates
    rw [hcp, List.mergeSort_singleton]
    rfl
  have hsel := h [] evB [] hfpc (by intro p hp; simp at hp) "B led to C" rfl
    (by decide)
  simpa [evB] using hsel

/-- Counterexample to C1 as stated: with the dependencies and the store
healthy but the embedding service unavailable, `add_event` returns failure
and stores nothing, whereas the claim asserts the event would still be
stored as a root event with the call returning success. -/
theorem add_event_unavailable_embedding_counterexample :
    ctxNoEmbedder.embedder = none ∧ ctxNoEmbedder.insertOk = true ∧
    add_event ctxNoEmbedder [] "service restarted" 0 1 = (false, []) :=
  ⟨rfl, rfl, rfl⟩

/-- C1 (amended): `add_event` returns failure and stores nothing when the
core is unavailable (in particular when the embedding service is missing)
or when the embedding computation fails; when embedding succeeds, an
unavailable or failing oracle does not prevent success — the event is
stored (as a root event when nothing is confirmed) and the call returns
success; with embedding in hand the call returns failure only if the store
insert fails. -/
theorem add_event_error_handling (ctx : LinkCtx) (db : List CausalEvent)
    (effect_text : String) (now : Int) (nextId : Nat) :
    (is_available ctx = false →
      add_event ctx db effect_text now nextId = (false, db)) ∧
    (∀ enc, ctx.embedder = some enc → enc effect_text = none →
      add_event ctx db effect_text now nextId = (false, db)) ∧
    (ctx.insertOk = false → (add_event ctx db effect_text now nextId).1 = false) ∧
    (∀ enc emb, is_available ctx = true → ctx.embedder = some enc →
      enc effect_text = some emb → ctx.insertOk = true →
      (add_event ctx db effect_text now nextId).1 = true) ∧
    (∀ enc emb, is_available ctx = true → ctx.embedder = some enc →
      enc effect_text = some emb → (∀ a b, ctx.oracle a b = none) →
      ctx.insertOk = true →
      add_event ctx db effect_text now nextId =
        (true, db ++ [{ event_id := nextId, timestamp := now,
                        effect_text := effect_text, embedding := emb }])) := by
  refine ⟨?_, ?_, ?_, ?_, ?_⟩
  · intro h
    exact add_event_of_unavailable ctx db effect_text now nextId h
  · intro enc henc hnone
    exact add_event_of_embed_fail ctx db effect_text now nextId enc henc hnone
  · intro hins
    exact add_event_of_insert_fail ctx db effect_text now nextId hins
  · intro enc emb havail henc hemb hins
    rw [add_event_of_success ctx db effect_text now nextId enc emb havail henc
      hemb hins]
  · intro enc emb havail henc hemb horacle hins
    have hsel : linkSelection ctx db effect_text now emb = none := by
      refine selectCause_none_of_all _ _ ?_
      intro c _ htruthy
      obtain ⟨r, hr, _⟩ := htruthy
      rw [oracleJudge] at hr
      rw [horacle] at hr
      exact absurd hr (by simp [judge_causality])
    rw [add_event_of_success ctx db effect_text now nextId enc emb havail henc
      hemb hins, hsel]
    rfl

/-- Witness for C1 (amended), exercising the embedding-unavailable branch
and the oracle-unavailable branch at concrete inputs. -/
theorem add_event_error_handling_witness :
    add_event ctxNoEmbedder [] "deploy" 0 1 = (false, []) ∧
    add_event ctxEmbOnly [] "deploy" 0 1 =
      (true, [{ event_id := 1, timestamp := 0, effect_text := "deploy",
                embedding := [1] }]) := by
  constructor
  · exact (add_event_error_handling ctxNoEmbedder [] "deploy" 0 1).1 rfl
  · have h := (add_event_error_handling ctxEmbOnly [] "deploy" 0 1).2.2.2.2
      constEmbedder [1] rfl rfl rfl (fun a b => rfl) rfl
    simpa using h

theorem jaccard_nil_left (w2 : List String) : jaccard [] w2 = 0 := by
  simp only [jaccard, List.nil_append, List.filter_nil, List.length_nil]
  by_cases h : w2.filter (fun w => !([] : List String).contains w) = []
  · rw [if_pos h]
  · rw [if_neg h]
    rw [Nat.cast_zero, zero_div]

theorem score_eq_jaccard_mul_decay (current_directive : String)
    (hist : HistEntry) (now : ℚ) :
    calculate_relevance_score current_directive hist now =
      jaccard (tokenSet current_directive) (tokenSet hist.directive) *
        timeDecay ((now - hist.created_at) / 3600) := by
  simp only [calculate_relevance_score]
  by_cases hd : current_directive = ""
  · rw [if_pos hd, hd]
    rw [show tokenSet "" = [] from rfl, jaccard_nil_left, zero_mul]
  · rw [if_neg hd]
    by_cases hboth : tokenSet current_directive = [] ∧ tokenSet hist.directive = []
    · rw [if_pos hboth, hboth.1, jaccard_nil_left, zero_mul]
    · rw [if_neg hboth]
      by_cases hu : tokenSet current_directive ++ (tokenSet hist.directive).filter
          (fun w => !(tokenSet current_directive).contains w) = []
      · rw [if_pos hu]
        simp only [jaccard]
        rw [if_pos hu, zero_mul]
      · rw [if_neg hu]
        simp only [jaccard, timeDecay]
        rw [if_neg hu]

theorem jaccard_nonneg (w1 w2 : List String) : 0 ≤ jaccard w1 w2 := by
  simp only [jaccard]
  by_cases h : w1 ++ w2.filter (fun w => !w1.contains w) = []
  · rw [if_pos h]
  · rw [if_neg h]
    exact div_nonneg (Nat.cast_nonneg _) (Nat.cast_nonneg _)

theorem jaccard_le_one (w1 w2 : List String) : jaccard w1 w2 ≤ 1 := by
  simp only [jaccard]
  by_cases h : w1 ++ w2.filter (fun w => !w1.contains w) = []
  · rw [if_pos h]
    exact zero_le_one
  · rw [if_neg h]
    have hlen : (w1.filter (fun w => w2.contains w)).length ≤
        (w1 ++ w2.filter (fun w => !w1.contains w)).length := by
      rw [List.length_append]
      exact le_trans (List.length_filter_le _ _) (Nat.le_add_right _ _)
    have hpos : 0 < ((w1 ++ w2.filter (fun w => !w1.contains w)).length : ℚ) := by
      have : (w1 ++ w2.filter (fun w => !w1.contains w)).length ≠ 0 := by
        intro h0
        exact h (List.eq_nil_of_length_eq_zero h0)
      exact_mod_cast Nat.pos_of_ne_zero this
    rw [div_le_one hpos]
    exact_mod_cast hlen

/-- Counterexample to C6 as stated: for a historical entry whose
`created_at` lies 24 hours in the future of `now`, the time decay is 2 and
the returned score is `2`, outside `[0,1]`. -/
theorem relevance_score_out_of_range_counterexample :
    calculate_relevance_score "cat"
      { directive := "cat", created_at := 86400 } 0 = 2 ∧
    ¬ (calculate_relevance_score "cat"
      { directive := "cat", created_at := 86400 } 0 ≤ 1) := by
  have hts : tokenSet "cat" = ["cat"] := by decide
  have hj : jaccard ["cat"] ["cat"] = 1 := by
    simp only [jaccard]
    rw [show (["cat"] : List String).filter
      (fun w => !(["cat"] : List String).contains w) = [] from by decide]
    rw [List.append_nil]
    rw [if_neg (by decide : ¬(["cat"] : List String) = [])]
    rw [show (["cat"] : List String).filter
      (fun w => (["cat"] : List String).contains w) = ["cat"] from by decide]
    norm_num
  have hd : timeDecay (((0 : ℚ) - 86400) / 3600) = 2 := by
    simp only [timeDecay]
    rw [show (1 : ℚ) - ((0 - 86400) / 3600) / 24 = 2 by norm_num]
    exact max_eq_right (by norm_num)
  have hscore : calculate_relevance_score "cat"
      { directive := "cat", created_at := 86400 } 0 = 2 := by
    rw [score_eq_jaccard_mul_decay]
    show jaccard (tokenSet "cat") (tokenSet "cat") *
      timeDecay (((0 : ℚ) - 86400) / 3600) = 2
    rw [hts, hj, hd, one_mul]
  exact ⟨hscore, by rw [hscore]; norm_num⟩

/-- C6 (amended): the relevance score always equals
`Jaccard(W1, W2) × max(0, 1 − age_hours / 24)` over the stop-word-filtered
token sets, with Jaccard 0 when the union (in particular both sets) is
empty; and the returned value lies in `[0,1]` whenever the entry's
`created_at` does not postdate `now` (a future-dated entry makes the decay
exceed 1 and the score can leave `[0,1]`). -/
theorem relevance_score_formula (current_directive : String) (hist : HistEntry)
    (now : ℚ) :
    calculate_relevance_score current_directive hist now =
      jaccard (tokenSet current_directive) (tokenSet hist.directive) *
        timeDecay ((now - hist.created_at) / 3600) ∧
    (hist.created_at ≤ now →
      0 ≤ calculate_relevance_score current_directive hist now ∧
      calculate_relevance_score current_directive hist now ≤ 1) := by
  refine ⟨score_eq_jaccard_mul_decay current_directive hist now, ?_⟩
  intro hage
  rw [score_eq_jaccard_mul_decay current_directive hist now]
  have hJ0 := jaccard_nonneg (tokenSet current_directive) (tokenSet hist.directive)
  have hJ1 := jaccard_le_one (tokenSet current_directive) (tokenSet hist.directive)
  have hD0 : 0 ≤ timeDecay ((now - hist.created_at) / 3600) := le_max_left _ _
  have hage2 : 0 ≤ (now - hist.created_at) / 3600 :=
    div_nonneg (by linarith) (by norm_num)
  have hD1 : timeDecay ((now - hist.created_at) / 3600) ≤ 1 := by
    simp only [timeDecay]
    refine max_le (by norm_num) ?_
    have : 0 ≤ ((now - hist.created_at) / 3600) / 24 :=
      div_nonneg hage2 (by norm_num)
    linarith
  constructor
  · exact mul_nonneg hJ0 hD0
  · calc jaccard (tokenSet current_directive) (tokenSet hist.directive) *
        timeDecay ((now - hist.created_at) / 3600) ≤ 1 * 1 :=
          mul_le_mul hJ1 hD1 hD0 zero_le_one
      _ = 1 := mul_one 1

/-- Witness for C6 (amended): a same-text entry of age zero scores
exactly 1, inside `[0,1]`. -/
theorem relevance_score_formula_witness :
    0 ≤ calculate_relevance_score "cat" { directive := "cat", created_at := 0 } 0 ∧
    calculate_relevance_score "cat" { directive := "cat", created_at := 0 } 0 ≤ 1 :=
  (relevance_score_formula "cat" { directive := "cat", created_at := 0 } 0).2
    (by norm_num)

theorem scoreLe_trans (a b c : HistEntry) (hab : scoreLe a b)
    (hbc : scoreLe b c) : scoreLe a c := by
  simp only [scoreLe, decide_eq_true_eq] at hab hbc ⊢
  exact le_trans hbc hab

theorem scoreLe_total (a b : HistEntry) : scoreLe a b || scoreLe b a := by
  simp only [scoreLe, Bool.or_eq_true, decide_eq_true_eq]
  exact le_total _ _

theorem filter_relevant_kept (dir : String) (entries : List HistEntry) (now : ℚ) :
    ((entries.map (filterStep dir now)).filter Prod.snd).map Prod.fst =
      (entries.filter (fun e => decide (contextThreshold ≤
        calculate_relevance_score dir e now))).map
        (fun e =>
          { e with relevance_score :=
                     some (calculate_relevance_score dir e now) }) := by
  induction entries with
  | nil => rfl
  | cons e t ih =>
      by_cases h : contextThreshold ≤ calculate_relevance_score dir e now
      · have hstep : filterStep dir now e =
            ({ e with relevance_score := some (calculate_relevance_score dir e now) }, true) := by
          simp only [filterStep]
          rw [if_pos h]
        simp only [List.map_cons, hstep, List.filter_cons]
        simp [h, ih]
      · have hstep : filterStep dir now e = (e, false) := by
          simp only [filterStep]
          rw [if_neg h]
        simp only [List.map_cons, hstep, List.filter_cons]
        simp [h, ih]

theorem score_cat_now :
    calculate_relevance_score "cat" { directive := "cat", created_at := 0 } 0 = 1 := by
  rw [score_eq_jaccard_mul_decay]
  show jaccard (tokenSet "cat") (tokenSet "cat") *
    timeDecay (((0 : ℚ) - 0) / 3600) = 1
  rw [show tokenSet "cat" = ["cat"] from by decide]
  have hj : jaccard ["cat"] ["cat"] = 1 := by
    simp only [jaccard]
    rw [show (["cat"] : List String).filter
      (fun w => !(["cat"] : List String).contains w) = [] from by decide]
    rw [List.append_nil, if_neg (by decide : ¬(["cat"] : List String) = [])]
    rw [show (["cat"] : List String).filter
      (fun w => (["cat"] : List String).contains w) = ["cat"] from by decide]
    norm_num
  have hd : timeDecay (((0 : ℚ) - 0) / 3600) = 1 := by
    simp only [timeDecay]
    rw [show (1 : ℚ) - (((0 : ℚ) - 0) / 3600) / 24 = 1 by norm_num]
    exact max_eq_right zero_le_one
  rw [hj, hd, one_mul]

/-- C7: `filter_relevant_context` returns exactly the entries whose
relevance score is at least the 0.7 threshold, each with its score
attached, sorted in descending order of score; no returned entry scores
below the threshold. -/
theorem filter_returns_thresholded_sorted (dir : String)
    (entries : List HistEntry) (now : ℚ) :
    List.Perm ((filter_relevant_context dir entries now).2)
      ((entries.filter (fun e => decide (contextThreshold ≤
          calculate_relevance_score dir e now))).map
        (fun e =>
          { e with relevance_score :=
                     some (calculate_relevance_score dir e now) })) ∧
    List.Pairwise
      (fun a b => b.relevance_score.getD 0 ≤ a.relevance_score.getD 0)
      ((filter_relevant_context dir entries now).2) ∧
    (∀ e ∈ (filter_relevant_context dir entries now).2,
      ∃ s, e.relevance_score = some s ∧ contextThreshold ≤ s ∧
        s = calculate_relevance_score dir e now) := by
  refine ⟨?_, ?_, ?_⟩
  · show List.Perm ((((entries.map (filterStep dir now)).filter
      Prod.snd).map Prod.fst).mergeSort scoreLe) _
    rw [filter_relevant_kept dir entries now]
    exact List.mergeSort_perm _ _
  · show List.Pairwise _ ((((entries.map (filterStep dir now)).filter
      Prod.snd).map Prod.fst).mergeSort scoreLe)
    have hp := List.sorted_mergeSort scoreLe_trans scoreLe_total
      (((entries.map (filterStep dir now)).filter Prod.snd).map Prod.fst)
    exact hp.imp (fun hab => by
      simpa [scoreLe, decide_eq_true_eq] using hab)
  · intro e he
    have he2 : e ∈ (((entries.map (filterStep dir now)).filter
        Prod.snd).map Prod.fst).mergeSort scoreLe := he
    rw [List.mem_mergeSort, filter_relevant_kept dir entries now] at he2
    obtain ⟨e0, he0, rfl⟩ := List.mem_map.mp he2
    have hth := of_decide_eq_true (List.mem_filter.mp he0).2
    exact ⟨calculate_relevance_score dir e0 now, rfl, hth, rfl⟩

/-- Witness for C7 at a concrete one-entry history: the single entry
scores 1 ≥ 0.7, is returned with its score attached, and the sorted
result is exactly that entry. -/
theorem filter_returns_thresholded_sorted_witness :
    (filter_relevant_context "cat" [{ directive := "cat", created_at := 0 }] 0).2 =
      [{ directive := "cat", created_at := 0, relevance_score := some 1 }] := by
  have h := (filter_returns_thresholded_sorted "cat"
    [{ directive := "cat", created_at := 0 }] 0).1
  have hdec : decide (contextThreshold ≤ calculate_relevance_score "cat"
      { directive := "cat", created_at := 0 } 0) = true := by
    rw [score_cat_now]
    exact decide_eq_true (by norm_num [contextThreshold])
  rw [List.filter_cons, hdec] at h
  simp only [if_true, List.filter_nil, List.map_cons, List.map_nil,
    score_cat_now] at h
  exact List.perm_singleton.mp h

/-- C10: `filter_relevant_context` mutates its input — every kept entry
has `relevance_score` written into the caller's entry in place, entries
below the threshold are left unmodified, and the returned list consists of
those same (updated) entries of the caller's list. -/
theorem filter_mutates_entries (dir : String) (entries : List HistEntry)
    (now : ℚ) :
    List.Forall₂ (fun orig upd =>
      (contextThreshold ≤ calculate_relevance_score dir orig now →
        upd = { orig with relevance_score :=
                            some (calculate_relevance_score dir orig now) }) ∧
      (calculate_relevance_score dir orig now < contextThreshold →
        upd = orig))
      entries ((filter_relevant_context dir entries now).1) ∧
    (∀ e ∈ (filter_relevant_context dir entries now).2,
      e ∈ (filter_relevant_context dir entries now).1) := by
  constructor
  · show List.Forall₂ _ entries ((entries.map (filterStep dir now)).map Prod.fst)
    induction entries with
    | nil => exact List.Forall₂.nil
    | cons e t ih =>
        simp only [List.map_cons]
        refine List.Forall₂.cons ⟨?_, ?_⟩ ih
        · intro h
          simp only [filterStep]
          rw [if_pos h]
        · intro h
          simp only [filterStep]
          rw [if_neg (not_le.mpr h)]
  · intro e he
    have he2 : e ∈ (((entries.map (filterStep dir now)).filter
        Prod.snd).map Prod.fst).mergeSort scoreLe := he
    rw [List.mem_mergeSort] at he2
    show e ∈ (entries.map (filterStep dir now)).map Prod.fst
    exact ((List.filter_sublist _).map Prod.fst).subset he2

/-- Witness for C10 at a concrete one-entry history: after the call the
caller's entry carries `relevance_score = 1`. -/
theorem filter_mutates_entries_witness :
    (filter_relevant_context "cat" [{ directive := "cat", created_at := 0 }] 0).1 =
      [{ directive := "cat", created_at := 0, relevance_score := some 1 }] := by
  have h := (filter_mutates_entries "cat"
    [{ directive := "cat", created_at := 0 }] 0).1
  rw [List.forall₂_cons_left_iff] at h
  obtain ⟨b, u, ⟨hb, _⟩, htail, heq⟩ := h
  have hu : u = [] := List.forall₂_nil_left_iff.mp htail
  have hbval := hb (by rw [score_cat_now]; norm_num [contextThreshold])
  rw [heq, hu, hbval, score_cat_now]

theorem lookup_eraseKey {α : Type} (l : List (String × α)) (k : String) :
    (eraseKey l k).lookup k = none := by
  induction l with
  | nil => rfl
  | cons p t ih =>
      obtain ⟨pk, pv⟩ := p
      simp only [eraseKey, List.filter_cons] at ih ⊢
      by_cases h : (pk == k) = true
      · rw [show (!((pk, pv).1 == k)) = false by simp [h]]
        simp only [Bool.false_eq_true, if_false]
        exact ih
      · rw [show (!((pk, pv).1 == k)) = true by simp [h]]
        simp only [if_true]
        rw [List.lookup_cons]
        have hk : (k == pk) = false := by
          rw [beq_eq_false_iff_ne]
          intro he
          rw [show ((pk == k) = true) = (pk = k) from by simp] at h
          exact h he.symm
        rw [hk]
        exact ih

theorem cache_get_miss {α : Type} (st : SessionCache α) (key : String) (now : ℚ)
    (h : st.cache.lookup key = none) : st.get key now = (none, st) := by
  unfold SessionCache.get
  split
  · next v heq => rw [h] at heq; exact absurd heq (by simp)
  · rfl

theorem cache_get_hit {α : Type} (st : SessionCache α) (key : String) (now : ℚ)
    (v : α) (h : st.cache.lookup key = some v)
    (hf : now - (st.timestamps.lookup key).getD 0 < st.ttl) :
    st.get key now =
      (some v, { st with cache := (key, v) :: eraseKey st.cache key }) := by
  unfold SessionCache.get
  split
  · next v2 heq =>
      rw [h] at heq
      cases heq
      rw [if_pos hf]
  · next heq => rw [h] at heq; exact absurd heq (by simp)

theorem cache_get_stale {α : Type} (st : SessionCache α) (key : String) (now : ℚ)
    (v : α) (h : st.cache.lookup key = some v)
    (hf : ¬ (now - (st.timestamps.lookup key).getD 0 < st.ttl)) :
    st.get key now =
      (none, { st with cache := eraseKey st.cache key,
                       timestamps := eraseKey st.timestamps key }) := by
  unfold SessionCache.get
  split
  · next v2 heq =>
      rw [h] at heq
      cases heq
      rw [if_neg hf]
  · next heq => rw [h] at heq; exact absurd heq (by simp)

/-- C8: cache `get` returns the stored value exactly when the key is
present and `now − insertion_time < ttl` (strictly); a present-but-stale
entry is evicted from both maps and `none` is returned (so a `get` after
`ttl` seconds with no intervening `set` returns none); a hit never
rewrites the timestamp map, so the TTL clock is not refreshed by hits. -/
theorem cache_get_ttl {α : Type} (st : SessionCache α) (key : String) (now : ℚ) :
    (∀ v : α, (st.get key now).1 = some v ↔
      (st.cache.lookup key = some v ∧
        now - (st.timestamps.lookup key).getD 0 < st.ttl)) ∧
    (∀ v : α, st.cache.lookup key = some v →
      ¬ (now - (st.timestamps.lookup key).getD 0 < st.ttl) →
      ((st.get key now).1 = none ∧
        (st.get key now).2.cache.lookup key = none ∧
        (st.get key now).2.timestamps.lookup key = none)) ∧
    (∀ v : α, (st.get key now).1 = some v →
      (st.get key now).2.timestamps = st.timestamps) := by
  refine ⟨?_, ?_, ?_⟩
  · intro v
    rcases hc : st.cache.lookup key with _ | v0
    · rw [cache_get_miss st key now hc]
      simp
    · by_cases hf : now - (st.timestamps.lookup key).getD 0 < st.ttl
      · rw [cache_get_hit st key now v0 hc hf]
        constructor
        · intro hv
          have hv2 : v0 = v := by simpa using hv
          exact ⟨congrArg some hv2, hf⟩
        · intro hv
          have hv2 : v0 = v := by simpa using hv.1
          exact congrArg some hv2
      · rw [cache_get_stale st key now v0 hc hf]
        constructor
        · intro hv; exact absurd hv (by simp)
        · intro hv; exact absurd hv.2 hf
  · intro v hc hf
    rw [cache_get_stale st key now v hc hf]
    exact ⟨rfl, lookup_eraseKey st.cache key, lookup_eraseKey st.timestamps key⟩
  · intro v hv
    rcases hc : st.cache.lookup key with _ | v0
    · rw [cache_get_miss st key now hc]
    · by_cases hf : now - (st.timestamps.lookup key).getD 0 < st.ttl
      · rw [cache_get_hit st key now v0 hc hf]
      · rw [cache_get_stale st key now v0 hc hf] at hv
        exact absurd hv (by simp)

/-- Witness for C8: an entry inserted at time 0 with `ttl = 300` is gone
at time 300 — `get` returns none and the entry is evicted. -/
theorem cache_get_ttl_witness :
    (SessionCache.get
      { cache := [("s", (42 : Nat))], timestamps := [("s", 0)],
        maxsize := 1000, ttl := 300 } "s" 300).1 = none ∧
    ((SessionCache.get
      { cache := [("s", (42 : Nat))], timestamps := [("s", 0)],
        maxsize := 1000, ttl := 300 } "s" 300).2.cache.lookup "s") = none := by
  have h := (cache_get_ttl
    { cache := [("s", (42 : Nat))], timestamps := [("s", 0)],
      maxsize := 1000, ttl := 300 } "s" 300).2.1 42
    (by decide)
    (by rw [show (([("s", (0 : ℚ))].lookup "s").getD 0) = 0 from by decide]
        norm_num)
  exact ⟨h.1, h.2.1⟩

end CCC
